import Mathlib

/-!
Verification of the recharts Brush core (src/cartesian/Brush.tsx).

Pixel coordinates are modelled as rationals; data indices as naturals.
The JS while loop of getIndexInRange becomes well-founded recursion on the
width of the search bracket, and the traveller drag handlers become pure
state-transition functions.
-/

namespace Recharts

/-- Start and end data index pair, mirroring the BrushStartEndIndex shape
used by getIndex and the change notifications in Brush.tsx. -/
structure BrushStartEndIndex where
  startIndex : Nat
  endIndex : Nat
deriving DecidableEq, Repr

/-- Binary-search loop of getIndexInRange from Brush.tsx: bracket (s, e)
narrows while e - s > 1; on exit the result is e when valueRange[e] <= x,
else s. The JS while loop is rendered as recursion on the bracket width. -/
def getIndexInRangeAux (valueRange : List ℚ) (x : ℚ) (s e : ℕ) : ℕ :=
  if h : 1 < e - s then
    if x < valueRange.getD ((s + e) / 2) 0 then
      getIndexInRangeAux valueRange x s ((s + e) / 2)
    else
      getIndexInRangeAux valueRange x ((s + e) / 2) e
  else if valueRange.getD e 0 ≤ x then e else s
termination_by e - s
decreasing_by
  · omega
  · omega

/-- getIndexInRange from Brush.tsx: start = 0, end = valueRange.length - 1,
then the binary-search loop. -/
def getIndexInRange (valueRange : List ℚ) (x : ℚ) : ℕ :=
  getIndexInRangeAux valueRange x 0 (valueRange.length - 1)

/-- The successive search brackets of getIndexInRange, ending with the
final bracket (s, e) from which the result is read off. Follows exactly
the loop of getIndexInRangeAux. -/
def finalBracketAux (valueRange : List ℚ) (x : ℚ) (s e : ℕ) : ℕ × ℕ :=
  if h : 1 < e - s then
    if x < valueRange.getD ((s + e) / 2) 0 then
      finalBracketAux valueRange x s ((s + e) / 2)
    else
      finalBracketAux valueRange x ((s + e) / 2) e
  else (s, e)
termination_by e - s
decreasing_by
  · omega
  · omega

/-- Final search bracket of getIndexInRange, starting from (0, length - 1). -/
def finalBracket (valueRange : List ℚ) (x : ℚ) : ℕ × ℕ :=
  finalBracketAux valueRange x 0 (valueRange.length - 1)

/-- Fuelled version of the getIndexInRange loop: each unit of fuel permits
one loop iteration; none is returned when fuel runs out while the loop
would still continue. Used to state termination of the source loop. -/
def locateFuelAux (valueRange : List ℚ) (x : ℚ) : ℕ → ℕ → ℕ → Option ℕ
  | s, e, 0 =>
    if 1 < e - s then none
    else some (if valueRange.getD e 0 ≤ x then e else s)
  | s, e, fuel + 1 =>
    if 1 < e - s then
      if x < valueRange.getD ((s + e) / 2) 0 then
        locateFuelAux valueRange x s ((s + e) / 2) fuel
      else
        locateFuelAux valueRange x ((s + e) / 2) e fuel
    else some (if valueRange.getD e 0 ≤ x then e else s)

/-- getIndex from Brush.tsx: lastIndex = data.length - 1, locate the min and
max pixel positions, snap the start down to a multiple of gap, and snap the
end likewise unless it is exactly the last index. Only the length of data
is used by the source, so data elements are modelled as rationals. -/
def getIndex (startX endX : ℚ) (scaleValues : List ℚ) (gap : ℕ) (data : List ℚ) :
    BrushStartEndIndex :=
  let lastIndex := data.length - 1
  let minIndex := getIndexInRange scaleValues (min startX endX)
  let maxIndex := getIndexInRange scaleValues (max startX endX)
  { startIndex := minIndex - minIndex % gap
    endIndex := if maxIndex = lastIndex then lastIndex else maxIndex - maxIndex % gap }

/-- The d3-scale scalePoint coordinate list for domain range(0, n) and pixel
range [r0, r1], as used by createScale in Brush.tsx. Follows the rescale
routine of d3 band/point scales with round = false, zero inner and outer
padding left at the point-scale defaults (paddingInner = 1, paddingOuter = 0)
and align = 1/2: the range is oriented, the step is
(stop - start) / max(1, n - 1), the start is re-centred, and the value list
is reversed again when the pixel range was reversed. -/
def scalePointValues (r0 r1 : ℚ) (n : ℕ) : List ℚ :=
  let rev := r1 < r0
  let rstart := if rev then r1 else r0
  let rstop := if rev then r0 else r1
  let step := (rstop - rstart) / max 1 ((n : ℚ) - 1)
  let rstart2 := rstart + (rstop - rstart - step * ((n : ℚ) - 1)) * (1 / 2)
  let values := (List.range n).map (fun i : ℕ => rstart2 + step * (i : ℚ))
  if rev then values.reverse else values

/-- Result record of createScale: the pixel positions of the two travellers
and the materialised coordinate table. startX and endX are undefined when
the requested index is outside the scale domain, as with d3 ordinal scales
whose unknown value is undefined. -/
structure CreateScaleReturn where
  startX : Option ℚ
  endX : Option ℚ
  scaleValues : List ℚ
deriving DecidableEq, Repr

/-- createScale from Brush.tsx: an empty result when data is missing or
empty, otherwise a point scale over domain range(0, data.length) and pixel
range [x, x + width - travellerWidth], with the coordinate table obtained
by mapping the scale over its domain. -/
def createScale (data : List ℚ) (startIndex endIndex : ℕ) (x width travellerWidth : ℚ) :
    Option CreateScaleReturn :=
  if data.length = 0 then none
  else
    let sv := scalePointValues x (x + width - travellerWidth) data.length
    some { startX := sv[startIndex]?, endX := sv[endIndex]?, scaleValues := sv }

/-- The two traveller handles of the brush, named as in Brush.tsx. -/
inductive BrushTravellerId where
  | startX : BrushTravellerId
  | endX : BrushTravellerId
deriving DecidableEq, Repr

/-- The pair of traveller pixel positions held in component state. -/
structure TravellerPositions where
  startX : ℚ
  endX : ℚ
deriving DecidableEq, Repr

/-- Read the position of one traveller, as travellerPositions[id] does. -/
def TravellerPositions.get (p : TravellerPositions) : BrushTravellerId → ℚ
  | BrushTravellerId.startX => p.startX
  | BrushTravellerId.endX => p.endX

/-- Update the position of one traveller, as the functional state update
with computed key [id] does. -/
def TravellerPositions.set (p : TravellerPositions) : BrushTravellerId → ℚ → TravellerPositions
  | BrushTravellerId.startX, v => { p with startX := v }
  | BrushTravellerId.endX, v => { p with endX := v }

/-- Outcome of one pointer move step of handleTravellerMove: the updated
traveller positions, the updated brushMoveStartX, and the change
notification passed to onChange when the isFullGap gate holds. -/
structure MoveResult where
  positions : TravellerPositions
  brushMoveStartX : ℚ
  emitted : Option BrushStartEndIndex
deriving DecidableEq, Repr

/-- handleTravellerMove from Brush.tsx as a pure step. The delta from the
previous pointer position is clamped to keep the moving traveller inside
[x, x + width - travellerWidth]. The source builds params with the moved
coordinate, but then spreads startX and endX over it, so the pre-move
positions win and getIndex is evaluated on the positions before this step;
the embedding reproduces that. The isFullGap gate is copied verbatim. -/
def handleTravellerMove (x width travellerWidth : ℚ) (data scaleValues : List ℚ)
    (gap : ℕ) (movingTravellerId : BrushTravellerId) (positions : TravellerPositions)
    (brushMoveStartX pageX : ℚ) : MoveResult :=
  let prevValue := positions.get movingTravellerId
  let rawDelta := pageX - brushMoveStartX
  let delta :=
    if 0 < rawDelta then min rawDelta (x + width - travellerWidth - prevValue)
    else if rawDelta < 0 then max rawDelta (x - prevValue)
    else rawDelta
  let newIndex := getIndex positions.startX positions.endX scaleValues gap data
  let lastIndex := data.length - 1
  let isFullGap :=
    (movingTravellerId = BrushTravellerId.startX ∧
      (if positions.startX < positions.endX then newIndex.startIndex % gap = 0
       else newIndex.endIndex % gap = 0)) ∨
    (positions.endX < positions.startX ∧ newIndex.endIndex = lastIndex) ∨
    (movingTravellerId = BrushTravellerId.endX ∧
      (if positions.startX < positions.endX then newIndex.endIndex % gap = 0
       else newIndex.startIndex % gap = 0)) ∨
    (positions.startX < positions.endX ∧ newIndex.endIndex = lastIndex)
  { positions := positions.set movingTravellerId (prevValue + delta)
    brushMoveStartX := pageX
    emitted := if isFullGap then some newIndex else none }

/-- A whole drag session of one traveller: fold handleTravellerMove over the
successive pointer pageX values, threading positions and brushMoveStartX. -/
def runTravellerMoves (x width travellerWidth : ℚ) (data scaleValues : List ℚ)
    (gap : ℕ) (id : BrushTravellerId) :
    TravellerPositions × ℚ → List ℚ → TravellerPositions × ℚ
  | st, [] => st
  | st, pageX :: rest =>
    let r := handleTravellerMove x width travellerWidth data scaleValues gap id st.1 st.2 pageX
    runTravellerMoves x width travellerWidth data scaleValues gap id
      (r.positions, r.brushMoveStartX) rest

/-- JS Array.prototype.indexOf on the coordinate table: index of the first
strictly equal element, -1 when absent. -/
def jsIndexOf : List ℚ → ℚ → ℤ
  | [], _ => -1
  | a :: as, v =>
    if a = v then 0
    else
      let r := jsIndexOf as v
      if r = -1 then -1 else r + 1

/-- handleTravellerMoveKeyboard from Brush.tsx as a pure function: none for
each early return (current position not found in the table, new index out
of the table, or the move would put the travellers on top of each other or
overlapping), otherwise the updated positions together with the
notification passed to onChange. As in the source, the notification is
getIndex over the closure values startX and endX, the positions before the
keyboard step. -/
def handleTravellerMoveKeyboard (data scaleValues : List ℚ) (gap : ℕ)
    (positions : TravellerPositions) (direction : ℤ) (id : BrushTravellerId) :
    Option (TravellerPositions × BrushStartEndIndex) :=
  let currentScaleValue := positions.get id
  let currentIndex := jsIndexOf scaleValues currentScaleValue
  if currentIndex = -1 then none
  else
    let newIndex := currentIndex + direction
    if newIndex = -1 ∨ (scaleValues.length : ℤ) ≤ newIndex then none
    else
      let newScaleValue := scaleValues.getD newIndex.toNat 0
      if (id = BrushTravellerId.startX ∧ positions.endX ≤ newScaleValue) ∨
         (id = BrushTravellerId.endX ∧ newScaleValue ≤ positions.startX) then none
      else
        some (positions.set id newScaleValue,
          getIndex positions.startX positions.endX scaleValues gap data)

theorem getIndexInRangeAux_step (v : List ℚ) (x : ℚ) (s e : ℕ) (h : 1 < e - s) :
    getIndexInRangeAux v x s e =
      if x < v.getD ((s + e) / 2) 0 then getIndexInRangeAux v x s ((s + e) / 2)
      else getIndexInRangeAux v x ((s + e) / 2) e := by
  rw [getIndexInRangeAux.eq_def]
  rw [dif_pos h]

theorem getIndexInRangeAux_base (v : List ℚ) (x : ℚ) (s e : ℕ) (h : ¬ 1 < e - s) :
    getIndexInRangeAux v x s e = if v.getD e 0 ≤ x then e else s := by
  rw [getIndexInRangeAux.eq_def]
  rw [dif_neg h]

theorem finalBracketAux_step (v : List ℚ) (x : ℚ) (s e : ℕ) (h : 1 < e - s) :
    finalBracketAux v x s e =
      if x < v.getD ((s + e) / 2) 0 then finalBracketAux v x s ((s + e) / 2)
      else finalBracketAux v x ((s + e) / 2) e := by
  rw [finalBracketAux.eq_def]
  rw [dif_pos h]

theorem finalBracketAux_base (v : List ℚ) (x : ℚ) (s e : ℕ) (h : ¬ 1 < e - s) :
    finalBracketAux v x s e = (s, e) := by
  rw [finalBracketAux.eq_def]
  rw [dif_neg h]

theorem getIndexInRangeAux_boundsN (v : List ℚ) (x : ℚ) :
    ∀ n s e, e - s ≤ n → s ≤ e →
      s ≤ getIndexInRangeAux v x s e ∧ getIndexInRangeAux v x s e ≤ e := by
  intro n
  induction n with
  | zero =>
    intro s e hn hse
    rw [getIndexInRangeAux_base v x s e (by omega)]
    split <;> omega
  | succ n ih =>
    intro s e hn hse
    by_cases h : 1 < e - s
    · rw [getIndexInRangeAux_step v x s e h]
      split
      · have := ih s ((s + e) / 2) (by omega) (by omega)
        omega
      · have := ih ((s + e) / 2) e (by omega) (by omega)
        omega
    · rw [getIndexInRangeAux_base v x s e h]
      split <;> omega

theorem getIndexInRangeAux_bounds (v : List ℚ) (x : ℚ) (s e : ℕ) (hse : s ≤ e) :
    s ≤ getIndexInRangeAux v x s e ∧ getIndexInRangeAux v x s e ≤ e :=
  getIndexInRangeAux_boundsN v x (e - s) s e le_rfl hse

theorem getIndexInRange_le (v : List ℚ) (x : ℚ) :
    getIndexInRange v x ≤ v.length - 1 :=
  (getIndexInRangeAux_bounds v x 0 (v.length - 1) (Nat.zero_le _)).2

theorem getIndexInRangeAux_monoN (v : List ℚ) (x1 x2 : ℚ) (hx : x1 ≤ x2) :
    ∀ n s e, e - s ≤ n → s ≤ e →
      getIndexInRangeAux v x1 s e ≤ getIndexInRangeAux v x2 s e := by
  intro n
  induction n with
  | zero =>
    intro s e hn hse
    rw [getIndexInRangeAux_base v x1 s e (by omega),
      getIndexInRangeAux_base v x2 s e (by omega)]
    split_ifs with h1 h2
    · exact le_rfl
    · exact absurd (le_trans h1 hx) h2
    · exact hse
    · exact le_rfl
  | succ n ih =>
    intro s e hn hse
    by_cases h : 1 < e - s
    · rw [getIndexInRangeAux_step v x1 s e h, getIndexInRangeAux_step v x2 s e h]
      by_cases h1 : x1 < v.getD ((s + e) / 2) 0 <;>
        by_cases h2 : x2 < v.getD ((s + e) / 2) 0
      · rw [if_pos h1, if_pos h2]
        exact ih s ((s + e) / 2) (by omega) (by omega)
      · rw [if_pos h1, if_neg h2]
        have hb1 := getIndexInRangeAux_bounds v x1 s ((s + e) / 2) (by omega)
        have hb2 := getIndexInRangeAux_bounds v x2 ((s + e) / 2) e (by omega)
        omega
      · exact absurd (lt_of_le_of_lt hx h2) h1
      · rw [if_neg h1, if_neg h2]
        exact ih ((s + e) / 2) e (by omega) (by omega)
    · rw [getIndexInRangeAux_base v x1 s e h, getIndexInRangeAux_base v x2 s e h]
      split_ifs with h1 h2
      · exact le_rfl
      · exact absurd (le_trans h1 hx) h2
      · exact hse
      · exact le_rfl

theorem getIndexInRange_mono (v : List ℚ) (x1 x2 : ℚ) (hx : x1 ≤ x2) :
    getIndexInRange v x1 ≤ getIndexInRange v x2 :=
  getIndexInRangeAux_monoN v x1 x2 hx (v.length - 1) 0 (v.length - 1)
    le_rfl (Nat.zero_le _)

theorem getIndexInRangeAux_eq_bracketN (v : List ℚ) (x : ℚ) :
    ∀ n s e, e - s ≤ n →
      getIndexInRangeAux v x s e =
        (if v.getD (finalBracketAux v x s e).2 0 ≤ x then (finalBracketAux v x s e).2
         else (finalBracketAux v x s e).1) := by
  intro n
  induction n with
  | zero =>
    intro s e hn
    rw [getIndexInRangeAux_base v x s e (by omega), finalBracketAux_base v x s e (by omega)]
  | succ n ih =>
    intro s e hn
    by_cases h : 1 < e - s
    · rw [getIndexInRangeAux_step v x s e h, finalBracketAux_step v x s e h]
      by_cases hc : x < v.getD ((s + e) / 2) 0
      · rw [if_pos hc, if_pos hc]
        exact ih s ((s + e) / 2) (by omega)
      · rw [if_neg hc, if_neg hc]
        exact ih ((s + e) / 2) e (by omega)
    · rw [getIndexInRangeAux_base v x s e h, finalBracketAux_base v x s e h]

theorem locateFuelAux_eq (v : List ℚ) (x : ℚ) :
    ∀ fuel s e, e - s ≤ fuel →
      locateFuelAux v x s e fuel = some (getIndexInRangeAux v x s e) := by
  intro fuel
  induction fuel with
  | zero =>
    intro s e hn
    simp only [locateFuelAux]
    rw [if_neg (by omega), getIndexInRangeAux_base v x s e (by omega)]
  | succ f ih =>
    intro s e hn
    simp only [locateFuelAux]
    by_cases h : 1 < e - s
    · rw [if_pos h, getIndexInRangeAux_step v x s e h]
      by_cases hc : x < v.getD ((s + e) / 2) 0
      · rw [if_pos hc, if_pos hc]
        exact ih s ((s + e) / 2) (by omega)
      · rw [if_neg hc, if_neg hc]
        exact ih ((s + e) / 2) e (by omega)
    · rw [if_neg h, getIndexInRangeAux_base v x s e h]

theorem getIndexInRange_eq_fuel (v : List ℚ) (x : ℚ) :
    locateFuelAux v x 0 (v.length - 1) v.length = some (getIndexInRange v x) :=
  locateFuelAux_eq v x v.length 0 (v.length - 1) (by omega)

/-- C2: for every table with at least one element, getIndexInRange returns
the final search bracket's end index when x is at least the coordinate at
that end index, else the bracket's start index; a table with exactly one
element yields index 0 for every x. -/
theorem claim2_getIndexInRange_bracket (v : List ℚ) (x : ℚ) (h : v ≠ []) :
    (getIndexInRange v x =
      if v.getD (finalBracket v x).2 0 ≤ x then (finalBracket v x).2
      else (finalBracket v x).1) ∧
    (v.length = 1 → getIndexInRange v x = 0) := by
  constructor
  · exact getIndexInRangeAux_eq_bracketN v x (v.length - 1) 0 (v.length - 1) (by omega)
  · intro h1
    have h0 : v.length - 1 = 0 := by omega
    unfold getIndexInRange
    rw [h0, getIndexInRangeAux_base v x 0 0 (by omega)]
    split <;> rfl

theorem claim2_witness : getIndexInRange [(5 : ℚ)] 3 = 0 :=
  (claim2_getIndexInRange_bracket [(5 : ℚ)] 3 (by simp)).2 rfl

/-- C8: getIndexInRange is monotonic in the pixel coordinate: for every
coordinate table and x1 < x2 the located index at x1 is at most the one
at x2. -/
theorem claim8_getIndexInRange_monotonic (v : List ℚ) (x1 x2 : ℚ) (h : x1 < x2) :
    getIndexInRange v x1 ≤ getIndexInRange v x2 :=
  getIndexInRange_mono v x1 x2 (le_of_lt h)

theorem claim8_witness :
    getIndexInRange [0, 10, 20] 1 ≤ getIndexInRange [0, 10, 20] 2 :=
  claim8_getIndexInRange_monotonic [0, 10, 20] 1 2 (by norm_num)

/-- C9: the binary search of getIndexInRange terminates for every table
with at least one element and every x: the bracket strictly narrows on
each loop iteration, so the fuelled rendering of the loop returns the
result of getIndexInRange within length units of fuel. -/
theorem claim9_getIndexInRange_terminates (v : List ℚ) (x : ℚ) (h : 1 ≤ v.length) :
    (∀ s e : ℕ, 1 < e - s → (s + e) / 2 - s < e - s ∧ e - (s + e) / 2 < e - s) ∧
    locateFuelAux v x 0 (v.length - 1) v.length = some (getIndexInRange v x) := by
  constructor
  · intro s e h1
    omega
  · exact getIndexInRange_eq_fuel v x

theorem claim9_witness :
    locateFuelAux [0, 10, 20] 5 0 2 3 = some (getIndexInRange [0, 10, 20] 5) :=
  (claim9_getIndexInRange_terminates [0, 10, 20] 5 (by norm_num)).2

/-- C1: for non-empty data and gap at least 1, getIndex returns
startIndex = minIndex - minIndex mod gap and endIndex = maxIndex unchanged
when maxIndex is the last data index, else maxIndex - maxIndex mod gap,
where minIndex and maxIndex locate the min and max pixel positions; with
gap = 1 the result is exactly the pair of located indices, and with
gap > 1 the returned indices are multiples of gap except a returned
endIndex equal to the last index. -/
theorem claim1_getIndex_formula (data scaleValues : List ℚ) (gap : ℕ)
    (startX endX : ℚ) (hd : data ≠ []) (hg : 1 ≤ gap) :
    (getIndex startX endX scaleValues gap data =
      { startIndex :=
          getIndexInRange scaleValues (min startX endX) -
            getIndexInRange scaleValues (min startX endX) % gap
        endIndex :=
          if getIndexInRange scaleValues (max startX endX) = data.length - 1
          then data.length - 1
          else getIndexInRange scaleValues (max startX endX) -
            getIndexInRange scaleValues (max startX endX) % gap }) ∧
    (gap = 1 →
      getIndex startX endX scaleValues gap data =
        { startIndex := getIndexInRange scaleValues (min startX endX)
          endIndex := getIndexInRange scaleValues (max startX endX) }) ∧
    (1 < gap →
      gap ∣ (getIndex startX endX scaleValues gap data).startIndex ∧
        (gap ∣ (getIndex startX endX scaleValues gap data).endIndex ∨
          (getIndex startX endX scaleValues gap data).endIndex = data.length - 1)) := by
  have hdvd : ∀ m : ℕ, gap ∣ (m - m % gap) := by
    intro m
    refine ⟨m / gap, ?_⟩
    have h3 := Nat.div_add_mod m gap
    omega
  refine ⟨rfl, ?_, ?_⟩
  · intro h1
    subst h1
    unfold getIndex
    simp only [Nat.mod_one, Nat.sub_zero]
    congr 1
    split_ifs with h2
    · exact h2.symm
    · rfl
  · intro hg1
    refine ⟨hdvd _, ?_⟩
    have he : (getIndex startX endX scaleValues gap data).endIndex =
        if getIndexInRange scaleValues (max startX endX) = data.length - 1
        then data.length - 1
        else getIndexInRange scaleValues (max startX endX) -
          getIndexInRange scaleValues (max startX endX) % gap := rfl
    rw [he]
    split_ifs with h2
    · exact Or.inr rfl
    · exact Or.inl (hdvd _)

theorem claim1_witness :
    (getIndex 0 10 [0, 10] 1 [0, 0] =
      { startIndex :=
          getIndexInRange [0, 10] (min 0 10) - getIndexInRange [0, 10] (min 0 10) % 1
        endIndex :=
          if getIndexInRange [0, 10] (max 0 10) = 1
          then 1
          else getIndexInRange [0, 10] (max 0 10) -
            getIndexInRange [0, 10] (max 0 10) % 1 }) ∧
    ((1 : ℕ) = 1 →
      getIndex 0 10 [0, 10] 1 [0, 0] =
        { startIndex := getIndexInRange [0, 10] (min 0 10)
          endIndex := getIndexInRange [0, 10] (max 0 10) }) ∧
    (1 < (1 : ℕ) →
      1 ∣ (getIndex 0 10 [0, 10] 1 [0, 0]).startIndex ∧
        (1 ∣ (getIndex 0 10 [0, 10] 1 [0, 0]).endIndex ∨
          (getIndex 0 10 [0, 10] 1 [0, 0]).endIndex = 1)) :=
  claim1_getIndex_formula [0, 0] [0, 10] 1 0 10 (by simp) (by norm_num)

/-- C10: for non-empty data, gap at least 1 and a non-decreasing coordinate
table aligned with the data, getIndex returns a window with
startIndex <= endIndex and both indices at most data.length - 1, also when
the pixel positions are reversed. -/
theorem claim10_getIndex_window_bounds (data scaleValues : List ℚ) (gap : ℕ)
    (startX endX : ℚ) (hd : data ≠ []) (hg : 1 ≤ gap)
    (hlen : scaleValues.length = data.length)
    (hsorted : scaleValues.Sorted (· ≤ ·)) :
    (getIndex startX endX scaleValues gap data).startIndex ≤
      (getIndex startX endX scaleValues gap data).endIndex ∧
    (getIndex startX endX scaleValues gap data).startIndex ≤ data.length - 1 ∧
    (getIndex startX endX scaleValues gap data).endIndex ≤ data.length - 1 := by
  have hmin := getIndexInRange_le scaleValues (min startX endX)
  have hmax := getIndexInRange_le scaleValues (max startX endX)
  have hmono := getIndexInRange_mono scaleValues (min startX endX) (max startX endX)
    min_le_max
  rw [hlen] at hmin hmax
  set mi := getIndexInRange scaleValues (min startX endX) with hmi
  set ma := getIndexInRange scaleValues (max startX endX) with hma
  have hfloor : mi - mi % gap ≤ ma - ma % gap := by
    have h1 := Nat.div_add_mod mi gap
    have h2 := Nat.div_add_mod ma gap
    have h3 : mi / gap ≤ ma / gap := Nat.div_le_div_right hmono
    have h4 : gap * (mi / gap) ≤ gap * (ma / gap) := Nat.mul_le_mul_left gap h3
    omega
  have hs : (getIndex startX endX scaleValues gap data).startIndex = mi - mi % gap := rfl
  have he : (getIndex startX endX scaleValues gap data).endIndex =
      if ma = data.length - 1 then data.length - 1 else ma - ma % gap := rfl
  rw [hs, he]
  split_ifs with h2
  · omega
  · omega

theorem claim10_witness :
    (getIndex 18 3 [0, 10, 20] 2 [0, 0, 0]).startIndex ≤
      (getIndex 18 3 [0, 10, 20] 2 [0, 0, 0]).endIndex ∧
    (getIndex 18 3 [0, 10, 20] 2 [0, 0, 0]).startIndex ≤ 2 ∧
    (getIndex 18 3 [0, 10, 20] 2 [0, 0, 0]).endIndex ≤ 2 :=
  claim10_getIndex_window_bounds [0, 0, 0] [0, 10, 20] 2 18 3 (by simp)
    (by norm_num) (by simp) (by decide)

theorem getElem_range_map (f : ℕ → ℚ) (n i : ℕ) (hi : i < n) :
    ((List.range n).map f)[i]? = some (f i) := by
  rw [List.getElem?_map, List.getElem?_range hi]
  rfl

theorem getElem_reverse_range_map (f : ℕ → ℚ) (n i : ℕ) (hi : i < n) :
    ((List.range n).map f).reverse[i]? = some (f (n - 1 - i)) := by
  have hr := List.getElem?_reverse
    (show i < ((List.range n).map f).length by simpa using hi)
  rw [hr]
  simp only [List.length_map, List.length_range]
  exact getElem_range_map f n (n - 1 - i) (by omega)

theorem scalePointValues_formula (r0 r1 : ℚ) (n : ℕ) (h2 : 2 ≤ n) (i : ℕ) (hi : i < n) :
    (scalePointValues r0 r1 n)[i]? = some (r0 + (i : ℚ) * ((r1 - r0) / ((n : ℚ) - 1))) := by
  have hn1 : (1 : ℚ) ≤ (n : ℚ) - 1 := by
    have h : (2 : ℚ) ≤ (n : ℚ) := by exact_mod_cast h2
    linarith
  have hd0 : ((n : ℚ) - 1) ≠ 0 := by linarith
  have hmax : max 1 ((n : ℚ) - 1) = (n : ℚ) - 1 := max_eq_right hn1
  have hcast : ((n - 1 - i : ℕ) : ℚ) = (n : ℚ) - 1 - (i : ℚ) := by
    have hi1 : i ≤ n - 1 := by omega
    have h1n : 1 ≤ n := by omega
    rw [Nat.cast_sub hi1, Nat.cast_sub h1n, Nat.cast_one]
  simp only [scalePointValues, hmax]
  by_cases hrev : r1 < r0
  · simp only [if_pos hrev]
    rw [getElem_reverse_range_map _ n i hi]
    congr 1
    rw [hcast]
    field_simp
    ring
  · simp only [if_neg hrev]
    rw [getElem_range_map _ n i hi]
    congr 1
    field_simp
    ring

/-- Counterexample to C3: with a single data point and valid geometry
(pixelStart 0, pixelWidth 10, travellerWidth 2) the d3 point scale places
index 0 at the midpoint 4 of the range, not at pixelStart 0. -/
theorem claim3_counterexample :
    createScale [0] 0 0 0 10 2 =
      some { startX := some 4, endX := some 4, scaleValues := [4] } ∧
    (4 : ℚ) ≠ 0 := by
  refine ⟨?_, by norm_num⟩
  unfold createScale scalePointValues
  norm_num
  rw [show List.range 1 = [0] from rfl]
  norm_num

/-- C3 as amended: for dataLength at least 2 the scale built by createScale
maps index 0 to pixelStart, index dataLength - 1 to
pixelStart + pixelWidth - travellerWidth, and distributes the dataLength
points at equal spacing (pixelWidth - travellerWidth) / (dataLength - 1);
a single data point is instead placed at the midpoint of the range. -/
theorem claim3_createScale_points (data : List ℚ) (si ei : ℕ) (x width tw : ℚ)
    (h2 : 2 ≤ data.length) :
    ∃ r, createScale data si ei x width tw = some r ∧
      r.scaleValues[0]? = some x ∧
      r.scaleValues[data.length - 1]? = some (x + width - tw) ∧
      ∀ i, i < data.length →
        r.scaleValues[i]? =
          some (x + (i : ℚ) * ((width - tw) / ((data.length : ℚ) - 1))) := by
  have hform : ∀ i, i < data.length →
      (scalePointValues x (x + width - tw) data.length)[i]? =
        some (x + (i : ℚ) * ((width - tw) / ((data.length : ℚ) - 1))) := by
    intro i hi
    have h := scalePointValues_formula x (x + width - tw) data.length h2 i hi
    have hx : x + width - tw - x = width - tw := by ring
    rw [hx] at h
    exact h
  refine ⟨{ startX := (scalePointValues x (x + width - tw) data.length)[si]?
            endX := (scalePointValues x (x + width - tw) data.length)[ei]?
            scaleValues := scalePointValues x (x + width - tw) data.length },
    ?_, ?_, ?_, hform⟩
  · unfold createScale
    rw [if_neg (by omega)]
  · have h := hform 0 (by omega)
    simpa using h
  · have hd0 : ((data.length : ℚ) - 1) ≠ 0 := by
      have h : (2 : ℚ) ≤ (data.length : ℚ) := by exact_mod_cast h2
      linarith
    have h := hform (data.length - 1) (by omega)
    rw [h]
    congr 1
    have hcast : ((data.length - 1 : ℕ) : ℚ) = (data.length : ℚ) - 1 := by
      rw [Nat.cast_sub (by omega), Nat.cast_one]
    rw [hcast]
    field_simp
    ring

theorem claim3_witness :
    ∃ r, createScale [0, 0, 0] 0 2 0 13 4 = some r ∧
      r.scaleValues[(0 : ℕ)]? = some 0 ∧
      r.scaleValues[[(0 : ℚ), 0, 0].length - 1]? = some (0 + 13 - 4) ∧
      ∀ i, i < [(0 : ℚ), 0, 0].length →
        r.scaleValues[i]? =
          some (0 + (i : ℚ) * ((13 - 4) / (([(0 : ℚ), 0, 0].length : ℚ) - 1))) :=
  claim3_createScale_points [0, 0, 0] 0 2 0 13 4 (by simp)

/-- Counterexample to C7: createScale does not check
pixelWidth > travellerWidth; with width 3 and travellerWidth 5 and two data
points it still returns a populated scale instead of an empty one. -/
theorem claim7_counterexample :
    createScale [0, 1] 0 1 0 3 5 ≠ none := by
  unfold createScale
  rw [if_neg (by simp : ¬ ([(0 : ℚ), 1].length = 0))]
  exact Option.some_ne_none _

/-- C7 as amended: createScale yields the empty result exactly when the
data array is missing or empty; the pixelWidth > travellerWidth
precondition is not checked by createScale, which returns a populated
scale even for pixelWidth at most travellerWidth. -/
theorem claim7_createScale_empty (data : List ℚ) (si ei : ℕ) (x width tw : ℚ) :
    createScale data si ei x width tw = none ↔ data = [] := by
  unfold createScale
  constructor
  · intro h
    by_cases h0 : data.length = 0
    · exact List.length_eq_zero.mp h0
    · rw [if_neg h0] at h
      exact Option.noConfusion h
  · intro h
    subst h
    rfl

theorem TravellerPositions.get_set_same (p : TravellerPositions) (id : BrushTravellerId)
    (v : ℚ) : (p.set id v).get id = v := by
  cases id <;> rfl

theorem TravellerPositions.get_set_other (p : TravellerPositions) (id other : BrushTravellerId)
    (v : ℚ) (h : other ≠ id) : (p.set id v).get other = p.get other := by
  cases id <;> cases other <;> first | rfl | exact absurd rfl h

theorem handleTravellerMove_positions (x width travellerWidth : ℚ)
    (data scaleValues : List ℚ) (gap : ℕ) (id : BrushTravellerId)
    (pos : TravellerPositions) (b pageX : ℚ) :
    (handleTravellerMove x width travellerWidth data scaleValues gap id pos b pageX).positions =
      pos.set id (pos.get id +
        (if 0 < pageX - b then min (pageX - b) (x + width - travellerWidth - pos.get id)
         else if pageX - b < 0 then max (pageX - b) (x - pos.get id)
         else pageX - b)) := rfl

theorem clamp_step_bounds (xmin B prev d : ℚ) (h1 : xmin ≤ prev) (h2 : prev ≤ B) :
    xmin ≤ prev + (if 0 < d then min d (B - prev)
                   else if d < 0 then max d (xmin - prev) else d) ∧
    prev + (if 0 < d then min d (B - prev)
            else if d < 0 then max d (xmin - prev) else d) ≤ B := by
  split_ifs with c1 c2
  · constructor
    · have h := le_min (le_of_lt c1) (by linarith : (0 : ℚ) ≤ B - prev)
      linarith
    · have h := min_le_right d (B - prev)
      linarith
  · constructor
    · have h := le_max_right d (xmin - prev)
      linarith
    · have h := max_le (le_of_lt c2) (by linarith : xmin - prev ≤ 0)
      linarith
  · have h : d = 0 := by linarith
    constructor <;> linarith

/-- C5: during a traveller drag every move event clamps the delta so the
moving traveller stays inside [x, x + width - travellerWidth], the track
edge on the opposite traveller's side being the far bound; this holds
after every sequence of move events of a drag session, and the other
traveller never moves. -/
theorem claim5_traveller_clamped (x width travellerWidth : ℚ) (data scaleValues : List ℚ)
    (gap : ℕ) (id : BrushTravellerId) (pos0 : TravellerPositions) (b0 : ℚ)
    (events : List ℚ) (h1 : x ≤ pos0.get id)
    (h2 : pos0.get id ≤ x + width - travellerWidth) :
    x ≤ ((runTravellerMoves x width travellerWidth data scaleValues gap id
        (pos0, b0) events).1).get id ∧
    ((runTravellerMoves x width travellerWidth data scaleValues gap id
        (pos0, b0) events).1).get id ≤ x + width - travellerWidth ∧
    ∀ other, other ≠ id →
      ((runTravellerMoves x width travellerWidth data scaleValues gap id
          (pos0, b0) events).1).get other = pos0.get other := by
  induction events generalizing pos0 b0 with
  | nil => exact ⟨h1, h2, fun other h => rfl⟩
  | cons pageX rest ih =>
    simp only [runTravellerMoves]
    have hstep := handleTravellerMove_positions x width travellerWidth data scaleValues
      gap id pos0 b0 pageX
    have hb := clamp_step_bounds x (x + width - travellerWidth) (pos0.get id)
      (pageX - b0) h1 h2
    have hgid : ((handleTravellerMove x width travellerWidth data scaleValues gap id
        pos0 b0 pageX).positions).get id =
        pos0.get id +
          (if 0 < pageX - b0
           then min (pageX - b0) (x + width - travellerWidth - pos0.get id)
           else if pageX - b0 < 0 then max (pageX - b0) (x - pos0.get id)
           else pageX - b0) := by
      rw [hstep, TravellerPositions.get_set_same]
    have h1n : x ≤ ((handleTravellerMove x width travellerWidth data scaleValues gap id
        pos0 b0 pageX).positions).get id := by
      rw [hgid]; exact hb.1
    have h2n : ((handleTravellerMove x width travellerWidth data scaleValues gap id
        pos0 b0 pageX).positions).get id ≤ x + width - travellerWidth := by
      rw [hgid]; exact hb.2
    have hrec := ih ((handleTravellerMove x width travellerWidth data scaleValues gap id
        pos0 b0 pageX).positions)
      ((handleTravellerMove x width travellerWidth data scaleValues gap id
        pos0 b0 pageX).brushMoveStartX) h1n h2n
    refine ⟨hrec.1, hrec.2.1, ?_⟩
    intro other ho
    rw [hrec.2.2 other ho, hstep, TravellerPositions.get_set_other _ _ _ _ ho]

theorem claim5_witness :
    (0 : ℚ) ≤ ((runTravellerMoves 0 25 5 [0, 0, 0] [0, 10, 20] 1 BrushTravellerId.startX
        ({ startX := 0, endX := 20 }, 0) [10, 40, -100]).1).get BrushTravellerId.startX ∧
    ((runTravellerMoves 0 25 5 [0, 0, 0] [0, 10, 20] 1 BrushTravellerId.startX
        ({ startX := 0, endX := 20 }, 0) [10, 40, -100]).1).get BrushTravellerId.startX ≤
      0 + 25 - 5 ∧
    ∀ other, other ≠ BrushTravellerId.startX →
      ((runTravellerMoves 0 25 5 [0, 0, 0] [0, 10, 20] 1 BrushTravellerId.startX
          ({ startX := 0, endX := 20 }, 0) [10, 40, -100]).1).get other =
        TravellerPositions.get { startX := 0, endX := 20 } other :=
  claim5_traveller_clamped 0 25 5 [0, 0, 0] [0, 10, 20] 1 BrushTravellerId.startX
    { startX := 0, endX := 20 } 0 [10, 40, -100]
    (by norm_num [TravellerPositions.get]) (by norm_num [TravellerPositions.get])

theorem getIndexInRange_concrete (v : List ℚ) (x : ℚ) (r : ℕ)
    (h : locateFuelAux v x 0 (v.length - 1) v.length = some r) :
    getIndexInRange v x = r := by
  have h2 := getIndexInRange_eq_fuel v x
  rw [h] at h2
  exact (Option.some.inj h2).symm

/-- C4 fails on the code: the pointer move handler builds params with the
moved coordinate but then spreads the pre-move startX and endX over it, so
the emitted window is computed from the positions before the step. At the
concrete drag step below the moving start traveller ends at 10 (final
positions (10, 20)), yet the emitted window is the one of the pre-step
positions (0, 20), with startIndex 0, while the step's final positions
give startIndex 1. -/
theorem claim4_stale_window :
    (handleTravellerMove 0 25 5 [0, 0, 0] [0, 10, 20] 1 BrushTravellerId.startX
        { startX := 0, endX := 20 } 0 10).positions =
      { startX := 10, endX := 20 } ∧
    (handleTravellerMove 0 25 5 [0, 0, 0] [0, 10, 20] 1 BrushTravellerId.startX
        { startX := 0, endX := 20 } 0 10).emitted =
      some { startIndex := 0, endIndex := 2 } ∧
    getIndex 10 20 [0, 10, 20] 1 [0, 0, 0] = { startIndex := 1, endIndex := 2 } ∧
    ({ startIndex := 0, endIndex := 2 } : BrushStartEndIndex) ≠
      { startIndex := 1, endIndex := 2 } := by
  have e0 : getIndexInRange [0, 10, 20] 0 = 0 :=
    getIndexInRange_concrete _ _ _ (by decide)
  have e10 : getIndexInRange [0, 10, 20] 10 = 1 :=
    getIndexInRange_concrete _ _ _ (by decide)
  have e20 : getIndexInRange [0, 10, 20] 20 = 2 :=
    getIndexInRange_concrete _ _ _ (by decide)
  have hgi1 : getIndex 0 20 [0, 10, 20] 1 [0, 0, 0] =
      { startIndex := 0, endIndex := 2 } := by
    simp only [getIndex]
    rw [show min (0 : ℚ) 20 = 0 by norm_num, show max (0 : ℚ) 20 = 20 by norm_num,
      e0, e20]
    norm_num
  have hgi2 : getIndex 10 20 [0, 10, 20] 1 [0, 0, 0] =
      { startIndex := 1, endIndex := 2 } := by
    simp only [getIndex]
    rw [show min (10 : ℚ) 20 = 10 by norm_num, show max (10 : ℚ) 20 = 20 by norm_num,
      e10, e20]
    norm_num
  refine ⟨?_, ?_, hgi2, by decide⟩
  · simp only [handleTravellerMove]
    norm_num [TravellerPositions.get, TravellerPositions.set]
  · simp only [handleTravellerMove, hgi1]
    norm_num [TravellerPositions.get]

/-- C6: with the current traveller position found in the coordinate table
at index ci, a keyboard arrow move succeeds exactly by placing the
traveller at the adjacent table coordinate (index ci + direction) and
emitting a change notification; the move is refused with no state change
and no notification when the new index leaves the table or when the new
coordinate would put start at or past end; in particular ArrowRight on the
end traveller already at the last coordinate is a no-op. -/
theorem claim6_keyboard_adjacent (data scaleValues : List ℚ) (gap : ℕ)
    (pos : TravellerPositions) (id : BrushTravellerId) (d : ℤ) (ci : ℕ)
    (hidx : jsIndexOf scaleValues (pos.get id) = (ci : ℤ)) :
    (∀ ni : ℕ, (ci : ℤ) + d = (ni : ℤ) → ni < scaleValues.length →
      ¬ ((id = BrushTravellerId.startX ∧ pos.endX ≤ scaleValues.getD ni 0) ∨
         (id = BrushTravellerId.endX ∧ scaleValues.getD ni 0 ≤ pos.startX)) →
      handleTravellerMoveKeyboard data scaleValues gap pos d id =
        some (pos.set id (scaleValues.getD ni 0),
          getIndex pos.startX pos.endX scaleValues gap data)) ∧
    ((ci : ℤ) + d = -1 ∨ (scaleValues.length : ℤ) ≤ (ci : ℤ) + d →
      handleTravellerMoveKeyboard data scaleValues gap pos d id = none) ∧
    (∀ ni : ℕ, (ci : ℤ) + d = (ni : ℤ) → ni < scaleValues.length →
      ((id = BrushTravellerId.startX ∧ pos.endX ≤ scaleValues.getD ni 0) ∨
       (id = BrushTravellerId.endX ∧ scaleValues.getD ni 0 ≤ pos.startX)) →
      handleTravellerMoveKeyboard data scaleValues gap pos d id = none) ∧
    (id = BrushTravellerId.endX → d = 1 → 1 ≤ scaleValues.length →
      ci = scaleValues.length - 1 →
      handleTravellerMoveKeyboard data scaleValues gap pos d id = none) := by
  have hne : ¬ (jsIndexOf scaleValues (pos.get id) = -1) := by
    rw [hidx]
    omega
  have hout : (ci : ℤ) + d = -1 ∨ (scaleValues.length : ℤ) ≤ (ci : ℤ) + d →
      handleTravellerMoveKeyboard data scaleValues gap pos d id = none := by
    intro h
    simp only [handleTravellerMoveKeyboard, hidx]
    rw [if_neg (by omega : ¬ ((ci : ℤ) = -1))]
    rw [if_pos h]
  refine ⟨?_, hout, ?_, ?_⟩
  · intro ni hni hlen href
    simp only [handleTravellerMoveKeyboard, hidx]
    rw [if_neg (by omega : ¬ ((ci : ℤ) = -1))]
    rw [if_neg (by omega : ¬ ((ci : ℤ) + d = -1 ∨ (scaleValues.length : ℤ) ≤ (ci : ℤ) + d))]
    rw [hni, Int.toNat_natCast]
    rw [if_neg href]
  · intro ni hni hlen href
    simp only [handleTravellerMoveKeyboard, hidx]
    rw [if_neg (by omega : ¬ ((ci : ℤ) = -1))]
    rw [if_neg (by omega : ¬ ((ci : ℤ) + d = -1 ∨ (scaleValues.length : ℤ) ≤ (ci : ℤ) + d))]
    rw [hni, Int.toNat_natCast]
    rw [if_pos href]
  · intro hid hd hlen hci
    exact hout (Or.inr (by omega))

theorem claim6_witness :
    handleTravellerMoveKeyboard [0, 0, 0] [0, 10, 20] 1 { startX := 0, endX := 20 } 1
      BrushTravellerId.endX = none :=
  (claim6_keyboard_adjacent [0, 0, 0] [0, 10, 20] 1 { startX := 0, endX := 20 }
      BrushTravellerId.endX 1 2 (by decide)).2.2.2 rfl rfl (by norm_num) (by norm_num)

end Recharts
